import Mathlib

/-!
Verification of `agent/proxycfg/manager.go` (Connect proxy configuration
Manager).

The Manager's own code (`manager.go`) is embedded directly.  The per-proxy
watch state (`state` in `state.go`, not part of the sources) and the agent's
cache / local-state / logger collaborators are external; they are modelled
from the spec as an abstract contract (`WatchSt`, `Env`).

Go maps are modelled as association lists whose update operation keeps keys
unique (`insertA` removes the old binding before appending); Go map iteration
order is unspecified, so the fixed list order used here is one admissible
refinement.  `uint64` watch indices are modelled as `Nat` (the index is the
size of a map, far below 2^64, and no claim concerns overflow).  Side effects
that matter to the claims — closing a watch state, constructing one, starting
its stream, closing a watcher channel, delivering a snapshot, closing the
change-signal channel — are recorded in an event trace on the manager state.
-/

namespace Proxycfg

/-- Modelled from the spec: the service-kind tag of a registered service;
the reconciliation loop only acts on services `whose kind marks it as a
connect-style proxy` (`structs.ServiceKindConnectProxy`). -/
inductive ServiceKind where
  | typical
  | connectProxy
deriving DecidableEq, Repr

/-- Modelled from the spec: a registered service descriptor
(`structs.NodeService`, external to the given sources): it carries an
identifier, a kind tag, and an otherwise opaque service definition. -/
structure NodeService where
  ID : String
  Kind : ServiceKind
  svcDefn : Nat
deriving DecidableEq, Repr

/-- A configuration snapshot: `an immutable value tagged with the owning
proxy's identifier; content is opaque to the coordinator`. -/
structure ConfigSnapshot where
  proxyID : String
  contents : Nat
deriving DecidableEq, Repr

/-- Modelled from the spec: the per-proxy watch state (`state` from
`state.go`, external to the given sources), `constructed from a service
descriptor and an access token`.  `sid` is the identity of the instance
(fresh per construction), used by the event trace. -/
structure WatchSt where
  sid : Nat
  ns : NodeService
  token : String
deriving DecidableEq, Repr

/-- Modelled from the spec: `whether a given (service descriptor, token)
pair constitutes a change from what it was built with`. -/
def WatchSt.Changed (st : WatchSt) (ns : NodeService) (token : String) : Bool :=
  decide (¬ (st.ns = ns ∧ st.token = token))

/-- A watcher delivery channel: identity plus the (capacity 1) buffer
contents.  The read side is held by the external consumer, so within the
model the buffer only fills. -/
structure Chan where
  cid : Nat
  buf : List ConfigSnapshot
deriving DecidableEq, Repr

/-- Observable side effects of the manager, recorded in a trace:
`closeState sid` = `state.Close()` on the watch state with identity `sid`;
`constructState sid` = successful `newState` returning identity `sid`;
`startWatch sid` = successful `state.Watch()`;
`closeChan cid` = `close(ch)` on the watcher channel with identity `cid`;
`deliver cid snap` = a successful send of `snap` into channel `cid`;
`closeStateCh` = `close(m.stateCh)`. -/
inductive Event where
  | closeState (sid : Nat)
  | constructState (sid : Nat)
  | startWatch (sid : Nat)
  | closeChan (cid : Nat)
  | deliver (cid : Nat) (snap : ConfigSnapshot)
  | closeStateCh
deriving DecidableEq, Repr

/-- Errors returned by manager operations.  `stopped` is `ErrStopped`
(`manager stopped`); the other two stand for the opaque non-nil errors of
`newState` and `state.Watch()`. -/
inductive Err where
  | stopped
  | constructFailed
  | watchFailed
deriving DecidableEq, Repr

/-- Go-map lookup on an association list (first binding wins). -/
def lookupA {κ α : Type} [DecidableEq κ] : List (κ × α) → κ → Option α
  | [], _ => none
  | e :: rest, k => if e.1 = k then some e.2 else lookupA rest k

/-- Go-map `delete`: drop every binding of the key. -/
def eraseA {κ α : Type} [DecidableEq κ] (l : List (κ × α)) (k : κ) :
    List (κ × α) :=
  l.filter (fun e => e.1 ≠ k)

/-- Go-map assignment `l[k] = v`: replace any old binding. -/
def insertA {κ α : Type} [DecidableEq κ] (l : List (κ × α)) (k : κ) (v : α) :
    List (κ × α) :=
  eraseA l k ++ [(k, v)]

/-- The key list of an association list. -/
def keysA {κ α : Type} (l : List (κ × α)) : List κ :=
  l.map (fun e => e.1)

/-- The Manager state (manager.go lines 32-45).  `stateCh` is `some ()`
while the change-signal channel is non-nil; the external collaborators held
in `ManagerConfig` are opaque and omitted.  `nextSid`/`nextCid` supply fresh
identities for watch states and watcher channels. -/
structure Manager where
  stateCh : Option Unit
  proxies : List (String × WatchSt)
  watchers : List (String × List (Nat × Chan))
  nextSid : Nat
  nextCid : Nat
  events : List Event
deriving DecidableEq, Repr

/-- `NewManager` (lines 66-80): fresh channel, empty maps.  The nil-checks
on the config fields concern the opaque collaborators and are not modelled. -/
def NewManager : Manager :=
  { stateCh := some (), proxies := [], watchers := [],
    nextSid := 0, nextCid := 0, events := [] }

/-- The environment abstracting the external watch-state contract: whether
`newState(ns, token)` fails, whether the subsequent `state.Watch()` fails
(both oracles of the construction inputs), and `CurrentSnapshot` of the
watch state with a given identity. -/
structure Env where
  newStateFails : NodeService → String → Bool
  watchFails : NodeService → String → Bool
  currentSnap : Nat → Option ConfigSnapshot

/-- Lines 156-181 of `ensureProxyServiceLocked`: construct a new watch
state (`newState`), start its stream (`state.Watch()`), and on success
record it in the proxy map.  Failure of either step returns the error with
the proxy map untouched.  The dependency injection (logger/cache/source)
and the forwarding goroutine concern opaque collaborators and leave no
observable state in the model. -/
def Manager.ensureConstructLocked (env : Env) (m : Manager)
    (ns : NodeService) (token : String) : Manager × Option Err :=
  if env.newStateFails ns token then (m, some Err.constructFailed)
  else
    let sid := m.nextSid
    let m1 := { m with nextSid := sid + 1,
                       events := m.events ++ [Event.constructState sid] }
    if env.watchFails ns token then (m1, some Err.watchFailed)
    else
      ({ m1 with proxies := insertA m1.proxies ns.ID ⟨sid, ns, token⟩,
                 events := m1.events ++ [Event.startWatch sid] }, none)

/-- `ensureProxyServiceLocked` (lines 143-182): no-op if tracked and
unchanged; close the old state first if tracked and changed; then construct
and start the replacement. -/
def Manager.ensureProxyServiceLocked (env : Env) (m : Manager)
    (ns : NodeService) (token : String) : Manager × Option Err :=
  match lookupA m.proxies ns.ID with
  | some st =>
    if st.Changed ns token then
      Manager.ensureConstructLocked env
        { m with events := m.events ++ [Event.closeState st.sid] } ns token
    else
      (m, none)
  | none => Manager.ensureConstructLocked env m ns token

/-- `removeProxyServiceLocked` (lines 186-202): if tracked, close the watch
state and delete the map entry; watchers are intentionally left alone. -/
def Manager.removeProxyServiceLocked (m : Manager) (proxyID : String) :
    Manager :=
  match lookupA m.proxies proxyID with
  | none => m
  | some st =>
    { m with proxies := eraseA m.proxies proxyID,
             events := m.events ++ [Event.closeState st.sid] }

/-- The `select { case ch <- snap; case <-time.After(...) }` send of
`notify` (lines 219-222): the consumer is external to the model, so a send
succeeds exactly when the single-slot buffer has room, and the value is
dropped otherwise. -/
def Chan.trySend (ch : Chan) (snap : ConfigSnapshot) : Chan × Bool :=
  if ch.buf.length < 1 then ({ ch with buf := ch.buf ++ [snap] }, true)
  else (ch, false)

/-- `notify` (lines 204-224): best-effort fan-out of a snapshot to every
currently registered watcher of its proxy. -/
def Manager.notify (m : Manager) (snap : ConfigSnapshot) : Manager :=
  match lookupA m.watchers snap.proxyID with
  | none => m
  | some ws =>
    { m with
      watchers := insertA m.watchers snap.proxyID
        (ws.map (fun e => (e.1, (e.2.trySend snap).1))),
      events := m.events ++
        ((ws.filter (fun e => (e.2.trySend snap).2)).map
          (fun e => Event.deliver e.2.cid snap)) }

/-- `Watch` (lines 230-257): allocate a buffered channel, index it by the
current watcher count for the proxy, store it, and synchronously deliver
the current snapshot when the proxy is tracked and one exists.  Returns the
updated manager together with the new channel's identity and the assigned
watch index; the cancellation callback is `closeWatchLocked proxyID idx`. -/
def Manager.Watch (env : Env) (m : Manager) (proxyID : String) :
    Manager × Nat × Nat :=
  let cid := m.nextCid
  let ws := (lookupA m.watchers proxyID).getD []
  let idx := ws.length
  let delivered : List ConfigSnapshot :=
    match lookupA m.proxies proxyID with
    | some st => (env.currentSnap st.sid).toList
    | none => []
  let ch : Chan := { cid := cid, buf := delivered }
  ({ m with
      watchers := insertA m.watchers proxyID (insertA ws idx ch),
      nextCid := cid + 1,
      events := m.events ++ delivered.map (fun s => Event.deliver cid s) },
   cid, idx)

/-- `closeWatchLocked` (lines 261-271): delete and close one watcher
channel; drop the proxy's outer entry when its watcher set becomes empty. -/
def Manager.closeWatchLocked (m : Manager) (proxyID : String)
    (watchIdx : Nat) : Manager :=
  match lookupA m.watchers proxyID with
  | none => m
  | some ws =>
    match lookupA ws watchIdx with
    | none => m
    | some ch =>
      let ws' := eraseA ws watchIdx
      { m with
        watchers :=
          if ws'.length = 0 then eraseA m.watchers proxyID
          else insertA m.watchers proxyID ws',
        events := m.events ++ [Event.closeChan ch.cid] }

/-- One registry snapshot as the reconciliation loop reads it:
`(svcID, svc, token)` per registered service, combining
`m.cfg.State.Services()` with `m.cfg.State.ServiceToken(svcID)`. -/
abbrev Registry := List (String × NodeService × String)

/-- The ensure half of a reconciliation pass (lines 103-121): for every
registered service whose kind is connect-proxy, call
`ensureProxyServiceLocked`, logging (discarding) its error. -/
def Manager.ensurePassLocked (env : Env) (m : Manager)
    (services : Registry) : Manager :=
  services.foldl
    (fun acc e =>
      if e.2.1.Kind = ServiceKind.connectProxy then
        (Manager.ensureProxyServiceLocked env acc e.2.1 e.2.2).1
      else acc) m

/-- The removal half of a reconciliation pass (lines 123-129): every
tracked proxy whose identifier is absent from the registry snapshot (the
check is on presence only, not on kind) is removed. -/
def Manager.removePassLocked (m : Manager) (services : Registry) :
    Manager :=
  (keysA m.proxies).foldl
    (fun acc k =>
      if k ∈ services.map (fun e => e.1) then acc
      else Manager.removeProxyServiceLocked acc k) m

/-- One reconciliation pass of `Run` (lines 99-131, the body between
acquiring and releasing the lock). -/
def Manager.runPass (env : Env) (m : Manager) (services : Registry) :
    Manager :=
  Manager.removePassLocked (Manager.ensurePassLocked env m services)
    services

/-- `Run` (lines 85-140): return `ErrStopped` if the change channel is
already nil (the instance was closed); otherwise execute one pass per
registry snapshot observed at successive wakeups and return nil when the
channel is closed.  The `Notify`/`StopNotify` subscription concerns the
opaque local-state collaborator. -/
def Manager.Run (env : Env) (m : Manager) (scheds : List Registry) :
    Manager × Option Err :=
  match m.stateCh with
  | none => (m, some Err.stopped)
  | some _ =>
    (scheds.foldl (fun acc s => Manager.runPass env acc s) m, none)

/-- `Close` (lines 274-296): close and nil the change channel if non-nil,
close every registered watcher via `closeWatchLocked`, then close every
tracked watch state and delete it.  Always returns nil. -/
def Manager.Close (m : Manager) : Manager × Option Err :=
  let m1 :=
    match m.stateCh with
    | some _ => { m with stateCh := none,
                         events := m.events ++ [Event.closeStateCh] }
    | none => m
  let m2 := m1.watchers.foldl
    (fun acc pws =>
      (keysA pws.2).foldl
        (fun a i => Manager.closeWatchLocked a pws.1 i) acc) m1
  let m3 := m2.proxies.foldl
    (fun acc pst =>
      { acc with proxies := eraseA acc.proxies pst.1,
                 events := acc.events ++ [Event.closeState pst.2.sid] }) m2
  (m3, none)

/-- An environment with no failures and no current snapshots, for concrete
scenarios. -/
def envNone : Env :=
  { newStateFails := fun _ _ => false,
    watchFails := fun _ _ => false,
    currentSnap := fun _ => none }

/-- A concrete connect-proxy service descriptor. -/
def nsP : NodeService :=
  { ID := "p", Kind := ServiceKind.connectProxy, svcDefn := 0 }

/-- The same service identifier re-registered with a non-proxy kind. -/
def nsPT : NodeService :=
  { ID := "p", Kind := ServiceKind.typical, svcDefn := 0 }

/-- A concrete watch state tracking `nsP` under token `t1`. -/
def stP : WatchSt := { sid := 0, ns := nsP, token := "t1" }

/-- A manager already tracking proxy `p`. -/
def mTrackP : Manager := { NewManager with proxies := [("p", stP)] }

/-- An environment in which every `newState` construction fails. -/
def envFail : Env :=
  { newStateFails := fun _ _ => true,
    watchFails := fun _ _ => false,
    currentSnap := fun _ => none }

/-- One watcher registered for `p` on a fresh manager. -/
def mWatch1 : Manager := (Manager.Watch envNone NewManager "p").1

/-- Two watchers registered for `p` (indices 0 and 1, channels 0 and 1). -/
def mWatch2 : Manager := (Manager.Watch envNone mWatch1 "p").1

/-- `mWatch2` after cancelling the first watcher (index 0). -/
def mCancel0 : Manager := Manager.closeWatchLocked mWatch2 "p" 0

/-- Registering for `p` again after the cancellation: the returned triple
is (manager, channel identity, watch index). -/
def wAfter : Manager × Nat × Nat := Manager.Watch envNone mCancel0 "p"

/-- Three watchers registered for `p` (indices 0, 1, 2). -/
def mWatch3 : Manager := (Manager.Watch envNone mWatch2 "p").1

/-- `mWatch3` after cancelling watcher 1: the inner key set is now the
non-contiguous `{0, 2}` while the watcher count is 2. -/
def mGap : Manager := Manager.closeWatchLocked mWatch3 "p" 1

/-- A registry snapshot in which service `p` is still registered but its
kind is no longer connect-proxy. -/
def regPT : Registry := [("p", nsPT, "t1")]

/-- A snapshot for proxy `p`, broadcast in the collision scenario. -/
def snapP : ConfigSnapshot := { proxyID := "p", contents := 7 }

/-- The collision scenario after broadcasting `snapP`. -/
def mNotifyP : Manager := Manager.notify wAfter.1 snapP

/-- The collision scenario after the second watcher's cancellation callback
(`closeWatchLocked "p" 1`) finally runs. -/
def mCancel1 : Manager := Manager.closeWatchLocked mNotifyP "p" 1

section AssocLemmas

variable {κ α : Type} [DecidableEq κ]

theorem lookupA_cons (e : κ × α) (rest : List (κ × α)) (k : κ) :
    lookupA (e :: rest) k = if e.1 = k then some e.2 else lookupA rest k :=
  rfl

theorem lookupA_eq_none_iff (l : List (κ × α)) (k : κ) :
    lookupA l k = none ↔ k ∉ keysA l := by
  induction l with
  | nil => simp [lookupA, keysA]
  | cons e rest ih =>
    rw [lookupA_cons]
    simp only [keysA, List.map_cons, List.mem_cons]
    by_cases h : e.1 = k
    · subst h
      simp
    · rw [if_neg h, ih]
      have hke : ¬ k = e.1 := fun he => h he.symm
      simp only [keysA]
      tauto

theorem mem_keysA_of_lookupA {l : List (κ × α)} {k : κ} {v : α}
    (h : lookupA l k = some v) : k ∈ keysA l := by
  by_contra hk
  rw [← lookupA_eq_none_iff] at hk
  rw [h] at hk
  exact Option.noConfusion hk

theorem eraseA_eq_self_of_not_mem {l : List (κ × α)} {k : κ}
    (h : k ∉ keysA l) : eraseA l k = l := by
  rw [eraseA, List.filter_eq_self]
  intro e he
  have hek : e.1 ≠ k := fun hek => h (List.mem_map.mpr ⟨e, he, hek⟩)
  simpa using hek

theorem mem_keysA_eraseA {l : List (κ × α)} {k k' : κ} :
    k' ∈ keysA (eraseA l k) ↔ k' ∈ keysA l ∧ k' ≠ k := by
  simp only [keysA, eraseA, List.mem_map, List.mem_filter]
  constructor
  · rintro ⟨e, ⟨he, hne⟩, rfl⟩
    refine ⟨⟨e, he, rfl⟩, ?_⟩
    simpa using hne
  · rintro ⟨⟨e, he, rfl⟩, hne⟩
    exact ⟨e, ⟨he, by simpa using hne⟩, rfl⟩

theorem lookupA_eraseA_self (l : List (κ × α)) (k : κ) :
    lookupA (eraseA l k) k = none := by
  rw [lookupA_eq_none_iff]
  intro hmem
  exact absurd rfl (mem_keysA_eraseA.mp hmem).2

theorem lookupA_eraseA_ne (l : List (κ × α)) {k k' : κ} (h : k' ≠ k) :
    lookupA (eraseA l k) k' = lookupA l k' := by
  induction l with
  | nil => rfl
  | cons e rest ih =>
    by_cases he : e.1 = k
    · have hst : eraseA (e :: rest) k = eraseA rest k := by
        simp [eraseA, List.filter_cons, he]
      rw [hst, ih, lookupA_cons, if_neg]
      rw [he]
      exact fun hh => h hh.symm
    · have hst : eraseA (e :: rest) k = e :: eraseA rest k := by
        simp [eraseA, List.filter_cons, he]
      rw [hst, lookupA_cons, lookupA_cons, ih]

theorem lookupA_append (l₁ l₂ : List (κ × α)) (k : κ) :
    lookupA (l₁ ++ l₂) k =
      match lookupA l₁ k with
      | some v => some v
      | none => lookupA l₂ k := by
  induction l₁ with
  | nil => simp [lookupA]
  | cons e rest ih =>
    rw [List.cons_append, lookupA_cons, lookupA_cons]
    by_cases h : e.1 = k <;> simp [h, ih]

theorem lookupA_insertA_self (l : List (κ × α)) (k : κ) (v : α) :
    lookupA (insertA l k v) k = some v := by
  rw [insertA, lookupA_append, lookupA_eraseA_self]
  simp [lookupA_cons]

theorem lookupA_insertA_ne (l : List (κ × α)) {k k' : κ} (v : α)
    (h : k' ≠ k) : lookupA (insertA l k v) k' = lookupA l k' := by
  rw [insertA, lookupA_append, lookupA_eraseA_ne l h]
  have hkk : ¬ k = k' := fun hh => h hh.symm
  cases hl : lookupA l k' <;> simp [lookupA_cons, lookupA, hkk]

theorem mem_keysA_insertA {l : List (κ × α)} {k k' : κ} {v : α} :
    k' ∈ keysA (insertA l k v) ↔ k' = k ∨ k' ∈ keysA l := by
  have hsplit : keysA (insertA l k v) = keysA (eraseA l k) ++ [k] := by
    simp [insertA, keysA]
  rw [hsplit, List.mem_append, List.mem_singleton]
  constructor
  · rintro (h | h)
    · exact Or.inr (mem_keysA_eraseA.mp h).1
    · exact Or.inl h
  · rintro (rfl | h)
    · exact Or.inr rfl
    · by_cases hk : k' = k
      · exact Or.inr hk
      · exact Or.inl (mem_keysA_eraseA.mpr ⟨h, hk⟩)

theorem length_insertA_of_not_mem {l : List (κ × α)} {k : κ} {v : α}
    (h : k ∉ keysA l) : (insertA l k v).length = l.length + 1 := by
  rw [insertA, eraseA_eq_self_of_not_mem h]
  simp

end AssocLemmas

theorem ensureConstructLocked_events (env : Env) (m : Manager)
    (ns : NodeService) (token : String) :
    ∃ tl, (Manager.ensureConstructLocked env m ns token).1.events
        = m.events ++ tl := by
  rw [Manager.ensureConstructLocked]
  by_cases h1 : env.newStateFails ns token = true
  · exact ⟨[], by simp [h1]⟩
  · by_cases h2 : env.watchFails ns token = true
    · exact ⟨[Event.constructState m.nextSid], by simp [h1, h2]⟩
    · exact ⟨[Event.constructState m.nextSid, Event.startWatch m.nextSid],
        by simp [h1, h2]⟩

theorem ensureConstructLocked_proxies_of_err (env : Env) (m : Manager)
    (ns : NodeService) (token : String) (e : Err)
    (h : (Manager.ensureConstructLocked env m ns token).2 = some e) :
    (Manager.ensureConstructLocked env m ns token).1.proxies = m.proxies := by
  rw [Manager.ensureConstructLocked] at h ⊢
  by_cases h1 : env.newStateFails ns token = true
  · simp [h1]
  · by_cases h2 : env.watchFails ns token = true
    · simp [h1, h2]
    · simp [h1, h2] at h

/-- C2: if a tracked entry's watch state reports no change for
`(ns, token)`, `ensureProxyServiceLocked` returns nil with the whole
manager state (proxy map, that entry, all other entries) unchanged; if it
reports a change, the existing watch state's `Close` is the very first
effect of the call, preceding any construction of a new watch state. -/
theorem ensureProxyServiceLocked_nochange_noop_changed_closes_first
    (env : Env) (m : Manager) (ns : NodeService) (token : String)
    (st : WatchSt) (hid : lookupA m.proxies ns.ID = some st) :
    (st.Changed ns token = false →
       Manager.ensureProxyServiceLocked env m ns token = (m, none)) ∧
    (st.Changed ns token = true →
       ∃ tl, (Manager.ensureProxyServiceLocked env m ns token).1.events
           = m.events ++ Event.closeState st.sid :: tl) := by
  constructor
  · intro hf
    rw [Manager.ensureProxyServiceLocked, hid]
    simp [hf]
  · intro ht
    rw [Manager.ensureProxyServiceLocked, hid]
    simp only [ht, if_true]
    obtain ⟨tl, htl⟩ := ensureConstructLocked_events env
      { m with events := m.events ++ [Event.closeState st.sid] } ns token
    exact ⟨tl, by simpa using htl⟩

/-- Witness for C2 at a concrete no-change input. -/
theorem ensureProxyServiceLocked_nochange_noop_witness :
    Manager.ensureProxyServiceLocked envNone mTrackP nsP "t1"
      = (mTrackP, none) :=
  (ensureProxyServiceLocked_nochange_noop_changed_closes_first envNone
    mTrackP nsP "t1" stP (by rfl)).1 (by decide)

/-- Counterexample to C3 as stated: with proxy `p` tracked and a changed
token, a failing `newState` returns an error, yet the (now closed) old
entry for `p` is still in the proxy map after the call. -/
theorem ensure_err_stale_entry_remains :
    (Manager.ensureProxyServiceLocked envFail mTrackP nsP "t2").2
        = some Err.constructFailed ∧
    lookupA (Manager.ensureProxyServiceLocked envFail mTrackP nsP
        "t2").1.proxies "p" = some stP := by
  constructor <;> rfl

/-- C3 (amended): a failing `ensureProxyServiceLocked` call leaves the
proxy map exactly as it was: an identifier untracked before the call is
still untracked, while a previously tracked (and now closed) entry remains
in the map. -/
theorem ensureProxyServiceLocked_err_proxies_unchanged
    (env : Env) (m : Manager) (ns : NodeService) (token : String) (e : Err)
    (h : (Manager.ensureProxyServiceLocked env m ns token).2 = some e) :
    (Manager.ensureProxyServiceLocked env m ns token).1.proxies
      = m.proxies := by
  cases hl : lookupA m.proxies ns.ID with
  | none =>
    simp only [Manager.ensureProxyServiceLocked, hl] at h ⊢
    exact ensureConstructLocked_proxies_of_err env m ns token e h
  | some st =>
    simp only [Manager.ensureProxyServiceLocked, hl] at h ⊢
    by_cases hc : st.Changed ns token = true
    · rw [if_pos hc] at h ⊢
      exact ensureConstructLocked_proxies_of_err env _ ns token e h
    · rw [if_neg hc] at h
      exact absurd h (by simp)

/-- Witness for the amended C3 at a concrete failing input. -/
theorem ensureProxyServiceLocked_err_proxies_unchanged_witness :
    (Manager.ensureProxyServiceLocked envFail NewManager nsP
        "t1").1.proxies = NewManager.proxies :=
  ensureProxyServiceLocked_err_proxies_unchanged envFail NewManager nsP
    "t1" Err.constructFailed (by rfl)

/-- C4: `Watch` is total — it always registers and returns a delivery
queue (retrievable under the returned watch index) — and the new queue
holds exactly the tracked watch state's current snapshot when the proxy is
tracked with a non-nil snapshot, and is empty when the proxy is untracked
or its snapshot is nil. -/
theorem Watch_total_and_initial_delivery (env : Env) (m : Manager)
    (p : String) :
    ∃ ws ch,
      lookupA (Manager.Watch env m p).1.watchers p = some ws ∧
      lookupA ws (Manager.Watch env m p).2.2 = some ch ∧
      (∀ st snap, lookupA m.proxies p = some st →
         env.currentSnap st.sid = some snap → ch.buf = [snap]) ∧
      (∀ st, lookupA m.proxies p = some st →
         env.currentSnap st.sid = none → ch.buf = []) ∧
      (lookupA m.proxies p = none → ch.buf = []) := by
  refine ⟨_, _, lookupA_insertA_self _ _ _, lookupA_insertA_self _ _ _,
    ?_, ?_, ?_⟩
  · intro st snap h1 h2
    show (match lookupA m.proxies p with
          | some st => (env.currentSnap st.sid).toList
          | none => ([] : List ConfigSnapshot)) = [snap]
    rw [h1]
    show (env.currentSnap st.sid).toList = [snap]
    rw [h2]
    rfl
  · intro st h1 h2
    show (match lookupA m.proxies p with
          | some st => (env.currentSnap st.sid).toList
          | none => ([] : List ConfigSnapshot)) = []
    rw [h1]
    show (env.currentSnap st.sid).toList = []
    rw [h2]
    rfl
  · intro h1
    show (match lookupA m.proxies p with
          | some st => (env.currentSnap st.sid).toList
          | none => ([] : List ConfigSnapshot)) = []
    rw [h1]

/-- Witness for C4 at a concrete input. -/
theorem Watch_total_and_initial_delivery_witness :
    ∃ ws ch,
      lookupA (Manager.Watch envNone NewManager "p").1.watchers "p"
        = some ws ∧
      lookupA ws (Manager.Watch envNone NewManager "p").2.2 = some ch ∧
      (∀ st snap, lookupA NewManager.proxies "p" = some st →
         envNone.currentSnap st.sid = some snap → ch.buf = [snap]) ∧
      (∀ st, lookupA NewManager.proxies "p" = some st →
         envNone.currentSnap st.sid = none → ch.buf = []) ∧
      (lookupA NewManager.proxies "p" = none → ch.buf = []) :=
  Watch_total_and_initial_delivery envNone NewManager "p"

/-- C5: removing a tracked proxy closes its watch state and deletes its
map entry, leaves every other proxy entry and the entire watcher registry
untouched, closes no watcher queue and delivers nothing to any watcher;
removing an untracked proxy changes nothing. -/
theorem removeProxyServiceLocked_spec (m : Manager) (p : String) :
    (Manager.removeProxyServiceLocked m p).watchers = m.watchers ∧
    lookupA (Manager.removeProxyServiceLocked m p).proxies p = none ∧
    (∀ q, q ≠ p →
       lookupA (Manager.removeProxyServiceLocked m p).proxies q
         = lookupA m.proxies q) ∧
    (∀ cid, Event.closeChan cid
        ∈ (Manager.removeProxyServiceLocked m p).events ↔
      Event.closeChan cid ∈ m.events) ∧
    (∀ cid snap, Event.deliver cid snap
        ∈ (Manager.removeProxyServiceLocked m p).events ↔
      Event.deliver cid snap ∈ m.events) ∧
    (∀ st, lookupA m.proxies p = some st →
       Event.closeState st.sid
         ∈ (Manager.removeProxyServiceLocked m p).events) ∧
    (lookupA m.proxies p = none →
       Manager.removeProxyServiceLocked m p = m) := by
  cases hl : lookupA m.proxies p with
  | none =>
    rw [Manager.removeProxyServiceLocked, hl]
    refine ⟨rfl, hl, fun q _ => rfl, fun cid => Iff.rfl,
      fun cid snap => Iff.rfl, ?_, fun _ => rfl⟩
    intro st hst
    exact Option.noConfusion hst
  | some st =>
    rw [Manager.removeProxyServiceLocked, hl]
    refine ⟨rfl, lookupA_eraseA_self _ _, fun q hq => lookupA_eraseA_ne _ hq,
      ?_, ?_, ?_, ?_⟩
    · intro cid
      simp
    · intro cid snap
      simp
    · intro st' hst'
      cases hst'
      simp
    · intro hn
      exact Option.noConfusion hn

/-- Witness for C5 at a concrete tracked proxy. -/
theorem removeProxyServiceLocked_spec_witness :
    (Manager.removeProxyServiceLocked mTrackP "p").watchers
        = mTrackP.watchers ∧
    lookupA (Manager.removeProxyServiceLocked mTrackP "p").proxies "p"
        = none :=
  ⟨(removeProxyServiceLocked_spec mTrackP "p").1,
   (removeProxyServiceLocked_spec mTrackP "p").2.1⟩

/-- C7: cancelling an existing watcher entry `(p, i)` removes it from
`p`'s watcher set and closes its queue; when that leaves the set empty the
outer map drops `p` entirely (never retaining an empty inner set), other
proxies' watcher sets are untouched; cancelling a nonexistent entry
changes nothing. -/
theorem closeWatchLocked_spec (m : Manager) (p : String) (i : Nat) :
    (∀ ws ch, lookupA m.watchers p = some ws → lookupA ws i = some ch →
       lookupA (Manager.closeWatchLocked m p i).watchers p
         = (if eraseA ws i = [] then none else some (eraseA ws i)) ∧
       lookupA (eraseA ws i) i = none ∧
       Event.closeChan ch.cid ∈ (Manager.closeWatchLocked m p i).events ∧
       (∀ q, q ≠ p → lookupA (Manager.closeWatchLocked m p i).watchers q
          = lookupA m.watchers q)) ∧
    (lookupA m.watchers p = none → Manager.closeWatchLocked m p i = m) ∧
    (∀ ws, lookupA m.watchers p = some ws → lookupA ws i = none →
       Manager.closeWatchLocked m p i = m) := by
  refine ⟨?_, ?_, ?_⟩
  · intro ws ch h1 h2
    simp only [Manager.closeWatchLocked, h1, h2]
    by_cases he : (eraseA ws i).length = 0
    · have hnil : eraseA ws i = [] := List.length_eq_zero.mp he
      simp only [he, if_true]
      refine ⟨?_, lookupA_eraseA_self _ _, by simp,
        fun q hq => lookupA_eraseA_ne _ hq⟩
      rw [if_pos hnil]
      exact lookupA_eraseA_self _ _
    · have hnil : ¬ eraseA ws i = [] := fun hh => he (by simp [hh])
      simp only [he, if_false]
      refine ⟨?_, lookupA_eraseA_self _ _, by simp,
        fun q hq => lookupA_insertA_ne _ _ hq⟩
      rw [if_neg hnil]
      exact lookupA_insertA_self _ _ _
  · intro h1
    simp only [Manager.closeWatchLocked, h1]
  · intro ws h1 h2
    simp only [Manager.closeWatchLocked, h1, h2]

/-- Witness for C7 at a concrete registered watcher. -/
theorem closeWatchLocked_spec_witness :
    Event.closeChan 0 ∈ (Manager.closeWatchLocked mWatch1 "p" 0).events :=
  (((closeWatchLocked_spec mWatch1 "p" 0).1
    [(0, { cid := 0, buf := [] })] { cid := 0, buf := [] }
    (by rfl) (by rfl))).2.2.1

/-- C9: starting fresh, `Watch("p")` twice hands out indices 0 and 1 and
channels 0 and 1; after cancelling watcher 0, the next `Watch("p")` is
assigned index 1 — colliding with the still-live second watcher — and its
map insertion replaces that watcher's entry: the second watcher's channel
(identity 1) is never closed and receives no broadcast delivery, while the
second watcher's cancellation callback (`closeWatchLocked "p" 1`) closes
the third watcher's channel (identity 2) instead of its own. -/
theorem watch_identifier_collision :
    (Manager.Watch envNone mWatch1 "p").2.2 = 1 ∧
    (Manager.Watch envNone mWatch1 "p").2.1 = 1 ∧
    wAfter.2.2 = 1 ∧
    wAfter.2.1 = 2 ∧
    lookupA ((lookupA wAfter.1.watchers "p").getD []) 1
      = some { cid := 2, buf := [] } ∧
    Event.closeChan 1 ∉ mCancel1.events ∧
    Event.deliver 1 snapP ∉ mNotifyP.events ∧
    Event.deliver 2 snapP ∈ mNotifyP.events ∧
    Event.closeChan 2 ∈ mCancel1.events := by
  decide

theorem closeWatchLocked_stateCh (m : Manager) (p : String) (i : Nat) :
    (Manager.closeWatchLocked m p i).stateCh = m.stateCh := by
  rw [Manager.closeWatchLocked]
  split
  · rfl
  · split
    · rfl
    · rfl

theorem closeWatchLocked_proxies (m : Manager) (p : String) (i : Nat) :
    (Manager.closeWatchLocked m p i).proxies = m.proxies := by
  rw [Manager.closeWatchLocked]
  split
  · rfl
  · split
    · rfl
    · rfl

theorem innerFold_stateCh (p : String) (L : List Nat) :
    ∀ m : Manager,
      ((L.foldl (fun a i => Manager.closeWatchLocked a p i) m)).stateCh
        = m.stateCh := by
  induction L with
  | nil => intro m; rfl
  | cons i L' ih =>
    intro m
    rw [List.foldl_cons, ih, closeWatchLocked_stateCh]

theorem watcherFold_stateCh (E : List (String × List (Nat × Chan))) :
    ∀ m : Manager,
      ((E.foldl (fun acc pws =>
          (keysA pws.2).foldl
            (fun a i => Manager.closeWatchLocked a pws.1 i) acc) m)).stateCh
        = m.stateCh := by
  induction E with
  | nil => intro m; rfl
  | cons e E' ih =>
    intro m
    rw [List.foldl_cons, ih, innerFold_stateCh]

theorem proxyFold_stateCh (E : List (String × WatchSt)) :
    ∀ m : Manager,
      ((E.foldl (fun acc pst =>
          { acc with proxies := eraseA acc.proxies pst.1,
                     events := acc.events ++ [Event.closeState pst.2.sid] })
          m)).stateCh = m.stateCh := by
  induction E with
  | nil => intro m; rfl
  | cons e E' ih =>
    intro m
    rw [List.foldl_cons, ih]

theorem Close_stateCh (m : Manager) : (Manager.Close m).1.stateCh = none := by
  simp only [Manager.Close]
  rw [proxyFold_stateCh, watcherFold_stateCh]
  cases h : m.stateCh with
  | none => exact h
  | some u => rfl

/-- C8: `Run` on an instance on which `Close` has completed returns
`ErrStopped` with the manager unchanged, without entering the
reconciliation loop; on an instance whose change channel has not been
nilled by `Close`, `Run` never returns `ErrStopped`. -/
theorem Run_stopped_exactly_after_Close (env : Env) (m : Manager)
    (scheds : List Registry) :
    Manager.Run env (Manager.Close m).1 scheds
        = ((Manager.Close m).1, some Err.stopped) ∧
    (m.stateCh ≠ none →
       (Manager.Run env m scheds).2 ≠ some Err.stopped) := by
  constructor
  · simp [Manager.Run, Close_stateCh]
  · intro h
    cases hc : m.stateCh with
    | none => exact absurd hc h
    | some u => simp [Manager.Run, hc]

/-- Witness for C8 at a concrete un-closed instance. -/
theorem Run_stopped_exactly_after_Close_witness :
    (Manager.Run envNone NewManager []).2 ≠ some Err.stopped :=
  (Run_stopped_exactly_after_Close envNone NewManager []).2 (by decide)

/-- Counterexample to C6 as stated: in the reachable state `mGap` (three
registrations for `p`, then cancellation of watcher 1, leaving key set
`{0, 2}` of size 2), two sequential registrations with no cancellation in
between are both assigned identifier 2 — not distinct identifiers. -/
theorem watch_sequential_ids_collide_cex :
    (Manager.Watch envNone mGap "p").2.2 = 2 ∧
    (Manager.Watch envNone (Manager.Watch envNone mGap "p").1 "p").2.2
      = 2 := by
  constructor <;> rfl

/-- C6 (amended): two sequential `Watch(p)` registrations with no
cancellations in between receive distinct identifiers provided the current
watcher count of `p` is not itself an already-assigned identifier (true in
particular whenever no cancellation for `p` has ever occurred); and after
two fresh registrations (identifiers 0 and 1) and cancellation of the
first, the next registration is again assigned the previously used
identifier 1 — identifiers derive from the current watcher count. -/
theorem watch_sequential_ids (env : Env) (m : Manager) (p : String)
    (h : ((lookupA m.watchers p).getD []).length
          ∉ keysA ((lookupA m.watchers p).getD [])) :
    (Manager.Watch env m p).2.2
        ≠ (Manager.Watch env (Manager.Watch env m p).1 p).2.2 ∧
    (Manager.Watch envNone mWatch1 "p").2.2 = 1 ∧
    wAfter.2.2 = 1 := by
  refine ⟨?_, rfl, rfl⟩
  have h1 : (Manager.Watch env m p).2.2
      = ((lookupA m.watchers p).getD []).length := rfl
  have hw : lookupA (Manager.Watch env m p).1.watchers p
      = some (insertA ((lookupA m.watchers p).getD [])
          ((lookupA m.watchers p).getD []).length
          { cid := m.nextCid,
            buf := match lookupA m.proxies p with
                   | some st => (env.currentSnap st.sid).toList
                   | none => [] }) := lookupA_insertA_self _ _ _
  have h2 : (Manager.Watch env (Manager.Watch env m p).1 p).2.2
      = ((lookupA (Manager.Watch env m p).1.watchers p).getD []).length :=
    rfl
  rw [h1, h2, hw, Option.getD_some, length_insertA_of_not_mem h]
  omega

/-- Witness for the amended C6 on a fresh manager. -/
theorem watch_sequential_ids_witness :
    (Manager.Watch envNone NewManager "p").2.2
      ≠ (Manager.Watch envNone (Manager.Watch envNone NewManager "p").1
          "p").2.2 :=
  (watch_sequential_ids envNone NewManager "p" (by decide)).1

theorem mem_keysA_ensureConstruct (env : Env) (m : Manager)
    (ns : NodeService) (token : String) (id : String) :
    id ∈ keysA (Manager.ensureConstructLocked env m ns token).1.proxies ↔
      id ∈ keysA m.proxies ∨
        (id = ns.ID ∧ env.newStateFails ns token = false ∧
          env.watchFails ns token = false) := by
  cases h1 : env.newStateFails ns token with
  | true => simp [Manager.ensureConstructLocked, h1]
  | false =>
    cases h2 : env.watchFails ns token with
    | true => simp [Manager.ensureConstructLocked, h1, h2]
    | false =>
      simp only [Manager.ensureConstructLocked, h1, h2,
        Bool.false_eq_true, if_false]
      rw [mem_keysA_insertA]
      simp only [and_true]
      tauto

theorem mem_keysA_ensure (env : Env) (m : Manager) (ns : NodeService)
    (token : String) (id : String) :
    id ∈ keysA (Manager.ensureProxyServiceLocked env m ns token).1.proxies ↔
      id ∈ keysA m.proxies ∨
        (id = ns.ID ∧ env.newStateFails ns token = false ∧
          env.watchFails ns token = false) := by
  cases hl : lookupA m.proxies ns.ID with
  | none =>
    simp only [Manager.ensureProxyServiceLocked, hl]
    exact mem_keysA_ensureConstruct env m ns token id
  | some st =>
    simp only [Manager.ensureProxyServiceLocked, hl]
    by_cases hc : st.Changed ns token = true
    · rw [if_pos hc]
      exact mem_keysA_ensureConstruct env _ ns token id
    · rw [if_neg hc]
      constructor
      · intro hm
        exact Or.inl hm
      · rintro (hm | ⟨rfl, _, _⟩)
        · exact hm
        · exact mem_keysA_of_lookupA hl

theorem mem_keysA_ensurePass (env : Env) (S : Registry) :
    ∀ (m : Manager) (id : String),
      id ∈ keysA (Manager.ensurePassLocked env m S).proxies ↔
        id ∈ keysA m.proxies ∨
          ∃ e ∈ S, e.2.1.ID = id ∧
            e.2.1.Kind = ServiceKind.connectProxy ∧
            env.newStateFails e.2.1 e.2.2 = false ∧
            env.watchFails e.2.1 e.2.2 = false := by
  induction S with
  | nil =>
    intro m id
    simp [Manager.ensurePassLocked]
  | cons e S' ih =>
    intro m id
    rw [Manager.ensurePassLocked, List.foldl_cons, ← Manager.ensurePassLocked]
    by_cases hk : e.2.1.Kind = ServiceKind.connectProxy
    · rw [if_pos hk, ih, mem_keysA_ensure]
      constructor
      · rintro ((hm | ⟨rfl, hn, hw⟩) | ⟨x, hx, hP⟩)
        · exact Or.inl hm
        · exact Or.inr ⟨e, List.mem_cons_self e S', rfl, hk, hn, hw⟩
        · exact Or.inr ⟨x, List.mem_cons_of_mem e hx, hP⟩
      · rintro (hm | ⟨x, hx, hP⟩)
        · exact Or.inl (Or.inl hm)
        · rcases List.mem_cons.mp hx with rfl | hx'
          · exact Or.inl (Or.inr ⟨hP.1.symm, hP.2.2⟩)
          · exact Or.inr ⟨x, hx', hP⟩
    · rw [if_neg hk, ih]
      constructor
      · rintro (hm | ⟨x, hx, hP⟩)
        · exact Or.inl hm
        · exact Or.inr ⟨x, List.mem_cons_of_mem e hx, hP⟩
      · rintro (hm | ⟨x, hx, hP⟩)
        · exact Or.inl hm
        · rcases List.mem_cons.mp hx with rfl | hx'
          · exact absurd hP.2.1 hk
          · exact Or.inr ⟨x, hx', hP⟩

theorem mem_keysA_remove (m : Manager) (p : String) (id : String) :
    id ∈ keysA (Manager.removeProxyServiceLocked m p).proxies ↔
      id ∈ keysA m.proxies ∧ id ≠ p := by
  cases hl : lookupA m.proxies p with
  | none =>
    simp only [Manager.removeProxyServiceLocked, hl]
    constructor
    · intro h
      refine ⟨h, ?_⟩
      rintro rfl
      exact absurd h ((lookupA_eq_none_iff _ _).mp hl)
    · exact And.left
  | some st =>
    simp only [Manager.removeProxyServiceLocked, hl]
    exact mem_keysA_eraseA

theorem mem_keysA_removeFold (reg : List String) (id : String) :
    ∀ (L : List String) (m : Manager),
      id ∈ keysA ((L.foldl (fun acc k =>
          if k ∈ reg then acc
          else Manager.removeProxyServiceLocked acc k) m)).proxies ↔
        id ∈ keysA m.proxies ∧ (id ∈ reg ∨ id ∉ L) := by
  intro L
  induction L with
  | nil =>
    intro m
    simp
  | cons k L' ih =>
    intro m
    rw [List.foldl_cons]
    rw [ih]
    by_cases hk : k ∈ reg
    · rw [if_pos hk]
      by_cases hik : id = k
      · subst hik
        simp [hk]
      · simp [List.mem_cons, hik]
    · rw [if_neg hk]
      rw [mem_keysA_remove]
      by_cases hik : id = k
      · subst hik
        simp [hk, List.mem_cons]
      · simp only [List.mem_cons, hik, false_or, ne_eq]
        tauto

theorem mem_keysA_removePass (m : Manager) (S : Registry) (id : String) :
    id ∈ keysA (Manager.removePassLocked m S).proxies ↔
      id ∈ keysA m.proxies ∧ id ∈ S.map (fun e => e.1) := by
  rw [Manager.removePassLocked, mem_keysA_removeFold]
  constructor
  · rintro ⟨hm, hr | hn⟩
    · exact ⟨hm, hr⟩
    · exact absurd hm hn
  · rintro ⟨hm, hr⟩
    exact ⟨hm, Or.inl hr⟩

/-- Counterexample to C1 as stated: starting from a manager tracking proxy
`p` and a registry in which service `p` is still registered but with a
non-proxy kind, a pass (with no construction failures) keeps `p` tracked,
although the set of connect-proxy registry entries is empty. -/
theorem runPass_keyset_differs_from_claimed :
    keysA (Manager.runPass envNone mTrackP regPT).proxies = ["p"] ∧
    regPT.filter
        (fun e => decide (e.2.1.Kind = ServiceKind.connectProxy)) = [] := by
  constructor <;> rfl

/-- C1 (amended): after one reconciliation pass, an identifier is tracked
iff it is present in the registry snapshot and either it was already
tracked before the pass, or some registry entry carries it as a
connect-proxy whose watch-state construction and stream start both
succeed.  In particular, on a previously empty proxy map the tracked set
is exactly the connect-proxy identifiers minus the failed ones, but a
failed or kind-changed identifier that was tracked before the pass and is
still registered remains in the map. -/
theorem runPass_tracked_key_characterization (env : Env) (m : Manager)
    (S : Registry) (id : String) :
    id ∈ keysA (Manager.runPass env m S).proxies ↔
      id ∈ S.map (fun e => e.1) ∧
        (id ∈ keysA m.proxies ∨
          ∃ e ∈ S, e.2.1.ID = id ∧
            e.2.1.Kind = ServiceKind.connectProxy ∧
            env.newStateFails e.2.1 e.2.2 = false ∧
            env.watchFails e.2.1 e.2.2 = false) := by
  rw [Manager.runPass, mem_keysA_removePass, mem_keysA_ensurePass]
  tauto

theorem closeWatchLocked_of_outer_none (m : Manager) (p : String)
    (i : Nat) (h : lookupA m.watchers p = none) :
    Manager.closeWatchLocked m p i = m := by
  simp only [Manager.closeWatchLocked, h]

theorem closeWatchLocked_of_inner_none (m : Manager) (p : String)
    (i : Nat) (ws : List (Nat × Chan))
    (h1 : lookupA m.watchers p = some ws) (h2 : lookupA ws i = none) :
    Manager.closeWatchLocked m p i = m := by
  simp only [Manager.closeWatchLocked, h1, h2]

theorem lookupA_closeWatchLocked_self (m : Manager) (p : String)
    (i : Nat) :
    lookupA (Manager.closeWatchLocked m p i).watchers p
      = match lookupA m.watchers p with
        | none => none
        | some w =>
          match lookupA w i with
          | none => some w
          | some _ =>
            if eraseA w i = [] then none else some (eraseA w i) := by
  cases hw : lookupA m.watchers p with
  | none =>
    rw [closeWatchLocked_of_outer_none m p i hw]
    exact hw
  | some w =>
    cases hch : lookupA w i with
    | none =>
      rw [closeWatchLocked_of_inner_none m p i w hw hch]
      simp only [hch]
      exact hw
    | some ch =>
      simp only [Manager.closeWatchLocked, hw, hch]
      by_cases he : (eraseA w i).length = 0
      · rw [if_pos he, if_pos (List.length_eq_zero.mp he)]
        exact lookupA_eraseA_self _ _
      · rw [if_neg he, if_neg (fun hh => he (by simp [hh]))]
        exact lookupA_insertA_self _ _ _

theorem closeWatchLocked_lookup_ne (m : Manager) (p q : String) (i : Nat)
    (h : q ≠ p) :
    lookupA (Manager.closeWatchLocked m p i).watchers q
      = lookupA m.watchers q := by
  cases hw : lookupA m.watchers p with
  | none => rw [closeWatchLocked_of_outer_none m p i hw]
  | some ws =>
    cases hch : lookupA ws i with
    | none => rw [closeWatchLocked_of_inner_none m p i ws hw hch]
    | some ch =>
      simp only [Manager.closeWatchLocked, hw, hch]
      by_cases he : (eraseA ws i).length = 0
      · rw [if_pos he]
        exact lookupA_eraseA_ne _ h
      · rw [if_neg he]
        exact lookupA_insertA_ne _ _ h

theorem keysA_closeWatchLocked_subset (m : Manager) (p : String)
    (i : Nat) :
    ∀ q, q ∈ keysA (Manager.closeWatchLocked m p i).watchers →
      q ∈ keysA m.watchers := by
  intro q
  cases hw : lookupA m.watchers p with
  | none =>
    rw [closeWatchLocked_of_outer_none m p i hw]
    exact fun hq => hq
  | some ws =>
    cases hch : lookupA ws i with
    | none =>
      rw [closeWatchLocked_of_inner_none m p i ws hw hch]
      exact fun hq => hq
    | some ch =>
      simp only [Manager.closeWatchLocked, hw, hch]
      by_cases he : (eraseA ws i).length = 0
      · rw [if_pos he]
        intro hq
        exact (mem_keysA_eraseA.mp hq).1
      · rw [if_neg he]
        intro hq
        rcases mem_keysA_insertA.mp hq with rfl | hq'
        · exact mem_keysA_of_lookupA hw
        · exact hq'

theorem innerFold_lookup_ne (p q : String) (h : q ≠ p) (L : List Nat) :
    ∀ m : Manager,
      lookupA ((L.foldl (fun a i => Manager.closeWatchLocked a p i)
          m)).watchers q = lookupA m.watchers q := by
  induction L with
  | nil => intro m; rfl
  | cons i L' ih =>
    intro m
    rw [List.foldl_cons, ih, closeWatchLocked_lookup_ne _ _ _ _ h]

theorem innerFold_keys_subset (p : String) (L : List Nat) :
    ∀ (m : Manager) (q : String),
      q ∈ keysA ((L.foldl (fun a i => Manager.closeWatchLocked a p i)
          m)).watchers → q ∈ keysA m.watchers := by
  induction L with
  | nil => intro m q hq; exact hq
  | cons i L' ih =>
    intro m q hq
    rw [List.foldl_cons] at hq
    exact keysA_closeWatchLocked_subset m p i q (ih _ q hq)

theorem innerFold_lookup_none (p : String) (L : List Nat) :
    ∀ m : Manager,
      (lookupA m.watchers p = none ∨
        ∃ w, lookupA m.watchers p = some w ∧ w ≠ [] ∧
          ∀ j ∈ keysA w, j ∈ L) →
      lookupA ((L.foldl (fun a i => Manager.closeWatchLocked a p i)
          m)).watchers p = none := by
  induction L with
  | nil =>
    intro m h
    rcases h with h | ⟨w, hw, hne, hsub⟩
    · exact h
    · cases w with
      | nil => exact absurd rfl hne
      | cons e t =>
        exact absurd (hsub e.1 (by simp [keysA])) (List.not_mem_nil e.1)
  | cons i L' ih =>
    intro m h
    rw [List.foldl_cons]
    apply ih
    rcases h with h | ⟨w, hw, hne, hsub⟩
    · left
      rw [closeWatchLocked_of_outer_none m p i h]
      exact h
    · cases hch : lookupA w i with
      | none =>
        right
        refine ⟨w, ?_, hne, ?_⟩
        · rw [closeWatchLocked_of_inner_none m p i w hw hch]
          exact hw
        · intro j hj
          rcases List.mem_cons.mp (hsub j hj) with rfl | hj'
          · exact absurd hj ((lookupA_eq_none_iff w j).mp hch)
          · exact hj'
      | some ch =>
        by_cases he : eraseA w i = []
        · left
          rw [lookupA_closeWatchLocked_self, hw]
          show (match lookupA w i with
                | none => some w
                | some _ =>
                  if eraseA w i = [] then none
                  else some (eraseA w i)) = none
          rw [hch]
          show (if eraseA w i = [] then none else some (eraseA w i)) = none
          rw [if_pos he]
        · right
          refine ⟨eraseA w i, ?_, he, ?_⟩
          · rw [lookupA_closeWatchLocked_self, hw]
            show (match lookupA w i with
                  | none => some w
                  | some _ =>
                    if eraseA w i = [] then none
                    else some (eraseA w i)) = some (eraseA w i)
            rw [hch]
            show (if eraseA w i = [] then none else some (eraseA w i))
                = some (eraseA w i)
            rw [if_neg he]
          · intro j hj
            rcases mem_keysA_eraseA.mp hj with ⟨hjw, hji⟩
            rcases List.mem_cons.mp (hsub j hjw) with rfl | hj'
            · exact absurd rfl hji
            · exact hj'

theorem lookupA_of_mem_nodupKeys {κ α : Type} [DecidableEq κ] :
    ∀ {l : List (κ × α)}, (keysA l).Nodup →
      ∀ e ∈ l, lookupA l e.1 = some e.2 := by
  intro l
  induction l with
  | nil =>
    intro _ e he
    exact absurd he (List.not_mem_nil e)
  | cons f t ih =>
    intro hnd e he
    have hnd' := List.nodup_cons.mp (show (f.1 :: keysA t).Nodup from hnd)
    rcases List.mem_cons.mp he with rfl | he'
    · rw [lookupA_cons, if_pos rfl]
    · rw [lookupA_cons, if_neg ?_]
      · exact ih hnd'.2 e he'
      · intro hh
        exact hnd'.1 (by rw [hh]; exact List.mem_map.mpr ⟨e, he', rfl⟩)

theorem watcherFold_watchers_nil (E : List (String × List (Nat × Chan))) :
    ∀ m : Manager,
      (∀ e ∈ E, lookupA m.watchers e.1 = some e.2) →
      (∀ e ∈ E, e.2 ≠ []) →
      (keysA E).Nodup →
      (∀ q, q ∈ keysA m.watchers → q ∈ keysA E) →
      ((E.foldl (fun acc pws =>
          (keysA pws.2).foldl
            (fun a i => Manager.closeWatchLocked a pws.1 i) acc)
          m)).watchers = [] := by
  induction E with
  | nil =>
    intro m _ _ _ hsub
    show m.watchers = []
    cases hwl : m.watchers with
    | nil => rfl
    | cons e t =>
      exact absurd (hsub e.1 (by rw [hwl]; simp [keysA]))
        (List.not_mem_nil e.1)
  | cons ews E' ih =>
    intro m hacc hne hnd hsub
    rw [List.foldl_cons]
    have hw : lookupA m.watchers ews.1 = some ews.2 :=
      hacc ews (List.mem_cons_self ews E')
    have hne0 : ews.2 ≠ [] := hne ews (List.mem_cons_self ews E')
    have hnd' := List.nodup_cons.mp
      (show (ews.1 :: keysA E').Nodup from hnd)
    have hnonep : lookupA ((keysA ews.2).foldl
        (fun a i => Manager.closeWatchLocked a ews.1 i) m).watchers ews.1
        = none :=
      innerFold_lookup_none ews.1 (keysA ews.2) m
        (Or.inr ⟨ews.2, hw, hne0, fun j hj => hj⟩)
    apply ih
    · intro e he
      have hq : e.1 ≠ ews.1 := by
        intro hh
        exact hnd'.1 (by rw [← hh]; exact List.mem_map.mpr ⟨e, he, rfl⟩)
      rw [innerFold_lookup_ne ews.1 e.1 hq _ m]
      exact hacc e (List.mem_cons_of_mem ews he)
    · exact fun e he => hne e (List.mem_cons_of_mem ews he)
    · exact hnd'.2
    · intro q hq
      have hqm : q ∈ keysA m.watchers := innerFold_keys_subset _ _ m q hq
      have hqE : q ∈ keysA (ews :: E') := hsub q hqm
      have hqp : q ≠ ews.1 := by
        rintro rfl
        rw [lookupA_eq_none_iff] at hnonep
        exact hnonep hq
      rcases List.mem_cons.mp (show q ∈ ews.1 :: keysA E' from hqE)
        with h1 | h2
      · exact absurd h1 hqp
      · exact h2

theorem proxyFold_watchers (E : List (String × WatchSt)) :
    ∀ m : Manager,
      ((E.foldl (fun acc pst =>
          { acc with proxies := eraseA acc.proxies pst.1,
                     events := acc.events ++ [Event.closeState pst.2.sid] })
          m)).watchers = m.watchers := by
  induction E with
  | nil => intro m; rfl
  | cons e E' ih =>
    intro m
    rw [List.foldl_cons, ih]

theorem proxyFold_proxies_nil (E : List (String × WatchSt)) :
    ∀ m : Manager,
      (∀ q, q ∈ keysA m.proxies → q ∈ keysA E) →
      ((E.foldl (fun acc pst =>
          { acc with proxies := eraseA acc.proxies pst.1,
                     events := acc.events ++ [Event.closeState pst.2.sid] })
          m)).proxies = [] := by
  induction E with
  | nil =>
    intro m hsub
    show m.proxies = []
    cases hpl : m.proxies with
    | nil => rfl
    | cons e t =>
      exact absurd (hsub e.1 (by rw [hpl]; simp [keysA]))
        (List.not_mem_nil e.1)
  | cons e E' ih =>
    intro m hsub
    rw [List.foldl_cons]
    apply ih
    intro q hq
    rcases mem_keysA_eraseA.mp hq with ⟨hqm, hqe⟩
    rcases List.mem_cons.mp
      (show q ∈ e.1 :: keysA E' from hsub q hqm) with h1 | h2
    · exact absurd h1 hqe
    · exact h2

theorem Close_watchers_nil (m : Manager)
    (hnd : (keysA m.watchers).Nodup)
    (hne : ∀ e ∈ m.watchers, e.2 ≠ []) :
    (Manager.Close m).1.watchers = [] := by
  cases hs : m.stateCh with
  | none =>
    simp only [Manager.Close, hs]
    rw [proxyFold_watchers]
    exact watcherFold_watchers_nil _ m (lookupA_of_mem_nodupKeys hnd) hne
      hnd (fun q hq => hq)
  | some u =>
    simp only [Manager.Close, hs]
    rw [proxyFold_watchers]
    exact watcherFold_watchers_nil _ _ (lookupA_of_mem_nodupKeys hnd) hne
      hnd (fun q hq => hq)

theorem Close_proxies_nil (m : Manager) :
    (Manager.Close m).1.proxies = [] := by
  cases hs : m.stateCh with
  | none =>
    simp only [Manager.Close, hs]
    exact proxyFold_proxies_nil _ _ (fun q hq => hq)
  | some u =>
    simp only [Manager.Close, hs]
    exact proxyFold_proxies_nil _ _ (fun q hq => hq)

theorem Close_of_drained (m : Manager) (h1 : m.stateCh = none)
    (h2 : m.watchers = []) (h3 : m.proxies = []) :
    Manager.Close m = (m, none) := by
  simp [Manager.Close, h1, h2, h3]

/-- C10: `Close` always returns nil; after a completed first `Close` the
change channel is nil (it was closed only if non-nil) and the watcher and
proxy maps are empty, so a second `Close` returns nil and is a no-op —
it closes nothing, deletes nothing and leaves the state (including the
event trace) unchanged.  The hypotheses state the Go-map representation
invariants of the watcher registry: keys are unique and no proxy maps to
an empty watcher set. -/
theorem Close_idempotent (m : Manager)
    (hnd : (keysA m.watchers).Nodup)
    (hne : ∀ e ∈ m.watchers, e.2 ≠ []) :
    (Manager.Close m).2 = none ∧
    (Manager.Close m).1.stateCh = none ∧
    (Manager.Close m).1.watchers = [] ∧
    (Manager.Close m).1.proxies = [] ∧
    Manager.Close (Manager.Close m).1 = ((Manager.Close m).1, none) :=
  ⟨rfl, Close_stateCh m, Close_watchers_nil m hnd hne,
   Close_proxies_nil m,
   Close_of_drained _ (Close_stateCh m) (Close_watchers_nil m hnd hne)
     (Close_proxies_nil m)⟩

/-- Witness for C10 at a concrete manager with two live watchers. -/
theorem Close_idempotent_witness :
    (Manager.Close mWatch2).2 = none ∧
    (Manager.Close mWatch2).1.stateCh = none ∧
    (Manager.Close mWatch2).1.watchers = [] ∧
    (Manager.Close mWatch2).1.proxies = [] ∧
    Manager.Close (Manager.Close mWatch2).1
      = ((Manager.Close mWatch2).1, none) :=
  Close_idempotent mWatch2 (by decide) (by decide)

end Proxycfg
